import Mathlib

/-!
Verification development for the SignedNetZoo link-prediction core
(`src/SignedNetZoo/link_prediction/algebraic_similarity.py`).

The three estimators `adjacency_dim_reduce`, `symmetric_adjacency_dim_reduce`
and `exponential_adjacency_dim_reduce` are embedded as executable Lean
functions.  Scalar entries live in an arbitrary linearly ordered commutative
ring `α` (floating-point accuracy is outside the claims; every statement below
holds for any scalar interpretation, in particular for `ℚ` and `ℝ`, and closed
evaluations use `ℤ`).  The external numeric kernels (scipy's `svds`, `eigsh`,
`expm` and numpy's `exp`) are abstracted as fields of a `LinAlg` structure,
since the claims concern control flow, reconstruction formulas, sign rules,
ordering and error behaviour, not solver internals.  Python exceptions are
modelled with `Except PyErr`: `invalidRank` stands for the ValueError scipy's
`svds`/`eigsh` raise when the requested rank `k` does not satisfy
`1 ≤ k < n`, `indexOutOfRange` for the numpy IndexError on an index outside
`[-n, n)`, and `unboundLocal` for the Python UnboundLocalError raised when a
local variable is read before any assignment (which happens for `EA` in the
`symmetric=True` branch of `exponential_adjacency_dim_reduce`).
-/

/-- Python exception kinds reachable in the embedded code. -/
inductive PyErr where
  | invalidRank
  | indexOutOfRange
  | unboundLocal
deriving DecidableEq, Repr

/-- Modelled from the spec: the graph is an opaque collaborator, consumed only
through the adjacency-matrix construction capability of
`SignedNetZoo.graph_properties` (not under `src/`); we record directly the two
sparse matrices that capability yields, with entries already real-valued
(`astype(float)` and sparse-format conversion are value-preserving). -/
structure Graph (α : Type) where
  n : ℕ
  adj : Fin n → Fin n → α
  symAdj : Fin n → Fin n → α

/-- The external numeric kernels, abstracted: `svdsF n k A` is the factor
triple (U, S, V) scipy's `svds` would return (U is n×k, S length k, V is k×n),
`eigshF n k A` the pair (W, V) from `eigsh` (W length k, V is n×k), `expmF`
the sparse matrix exponential, `expF` numpy's scalar `exp`.  The estimators
are proved correct for every such bundle, so nothing is assumed about the
solvers beyond determinism on identical input (the spec's §8 determinism
requirement). -/
structure LinAlg (α : Type) where
  svdsF : (n k : ℕ) → (Fin n → Fin n → α) →
    (Fin n → Fin k → α) × (Fin k → α) × (Fin k → Fin n → α)
  eigshF : (n k : ℕ) → (Fin n → Fin n → α) →
    (Fin k → α) × (Fin n → Fin k → α)
  expmF : (n : ℕ) → (Fin n → Fin n → α) → (Fin n → Fin n → α)
  expF : α → α

section Embedding

variable {α : Type} [LinearOrderedCommRing α]

/-- Modelled from the spec: `get_adjacency_matrix` (graph_properties module,
not under `src/`) returns the raw signed adjacency matrix together with a
node-index mapping; the mapping is the identity on our index-based graphs, so
only the matrix is kept. -/
def get_adjacency_matrix (G : Graph α) : Fin G.n → Fin G.n → α :=
  G.adj

/-- Modelled from the spec: `get_symmetric_adjacency_matrix` (graph_properties
module, not under `src/`) returns the symmetrized adjacency matrix, whose
exact derivation is the collaborator's responsibility — treated as given. -/
def get_symmetric_adjacency_matrix (G : Graph α) : Fin G.n → Fin G.n → α :=
  G.symAdj

/-- Call `svds(A, k=dim)` including scipy's rank precondition: it raises
(ValueError, modelled `invalidRank`) unless `1 ≤ k < min(A.shape) = n`. -/
def svdsCall (L : LinAlg α) (n : ℕ) (A : Fin n → Fin n → α) (k : ℕ) :
    Except PyErr ((Fin n → Fin k → α) × (Fin k → α) × (Fin k → Fin n → α)) :=
  if 1 ≤ k ∧ k < n then .ok (L.svdsF n k A) else .error .invalidRank

/-- Call `eigsh(A, k=dim)` including scipy's rank precondition `1 ≤ k < n`. -/
def eigshCall (L : LinAlg α) (n : ℕ) (A : Fin n → Fin n → α) (k : ℕ) :
    Except PyErr ((Fin k → α) × (Fin n → Fin k → α)) :=
  if 1 ≤ k ∧ k < n then .ok (L.eigshF n k A) else .error .invalidRank

/-- numpy indexing of an axis of length `n` with a Python integer: indices in
`[0, n)` are taken as-is, indices in `[-n, 0)` wrap around by `+ n`, anything
else raises IndexError. -/
def npIndex (n : ℕ) (i : ℤ) : Except PyErr (Fin n) :=
  if h : 0 ≤ i ∧ i < (n : ℤ) then
    .ok ⟨i.toNat, by omega⟩
  else if h2 : -(n : ℤ) ≤ i ∧ i < 0 then
    .ok ⟨(i + n).toNat, by omega⟩
  else
    .error .indexOutOfRange

/-- Python's `sum([f(k) for k in range(dim)])`. -/
def entrySum (dim : ℕ) (f : Fin dim → α) : α :=
  ((List.finRange dim).map f).sum

/-- The Python accumulation loop `preds = []; for pair in required_links: …`:
the first raised exception aborts the whole call, otherwise the per-pair
results are collected in input order. -/
def predLoop (step : ℤ × ℤ → Except PyErr ℤ) :
    List (ℤ × ℤ) → Except PyErr (List ℤ)
  | [] => .ok []
  | p :: rest => do
    let x ← step p
    let xs ← predLoop step rest
    pure (x :: xs)

/-- Loop body of `adjacency_dim_reduce` (and of the `symmetric=False` branch of
`exponential_adjacency_dim_reduce`):
`entry_val = sum([s[k] * u[i, k] * v[k, j] for k in range(dim)])` followed by
the sign rule `entry_val >= 0 → 1, else -1`.  The indices `i, j` are resolved
by numpy when `u[i, k]`/`v[k, j]` are first evaluated; since the loop is only
reached with `dim ≥ 1`, resolving them up front is equivalent. -/
def svd_entry_step (n dim : ℕ) (u : Fin n → Fin dim → α) (s : Fin dim → α)
    (v : Fin dim → Fin n → α) (pair : ℤ × ℤ) : Except PyErr ℤ := do
  let i ← npIndex n pair.1
  let j ← npIndex n pair.2
  let entry_val := entrySum dim (fun k => s k * u i k * v k j)
  pure (if 0 ≤ entry_val then 1 else -1)

/-- Loop body of `symmetric_adjacency_dim_reduce`:
`entry_val = sum([w[k] * v[i, k] * v[j, k] for k in range(dim)])` followed by
the same sign rule. -/
def eig_entry_step (n dim : ℕ) (w : Fin dim → α) (v : Fin n → Fin dim → α)
    (pair : ℤ × ℤ) : Except PyErr ℤ := do
  let i ← npIndex n pair.1
  let j ← npIndex n pair.2
  let entry_val := entrySum dim (fun k => w k * v i k * v j k)
  pure (if 0 ≤ entry_val then 1 else -1)

/-- Source function `adjacency_dim_reduce(G, dim, required_links)`. -/
def adjacency_dim_reduce (L : LinAlg α) (G : Graph α) (dim : ℕ)
    (required_links : List (ℤ × ℤ)) : Except PyErr (List ℤ) := do
  let A := get_adjacency_matrix G
  let (u, s, v) ← svdsCall L G.n A dim
  predLoop (svd_entry_step G.n dim u s v) required_links

/-- Source function `symmetric_adjacency_dim_reduce(G, dim, required_links)`. -/
def symmetric_adjacency_dim_reduce (L : LinAlg α) (G : Graph α) (dim : ℕ)
    (required_links : List (ℤ × ℤ)) : Except PyErr (List ℤ) := do
  let A := get_symmetric_adjacency_matrix G
  let (w, v) ← eigshCall L G.n A dim
  predLoop (eig_entry_step G.n dim w v) required_links

/-- Source function `exponential_adjacency_dim_reduce(G, dim, required_links, symmetric)`.
Control flow of the source, kept faithfully: after the `if not symmetric /
else` block, the line `u, s, v = svds(EA, k=dim)` runs unconditionally.  In
the `symmetric=True` branch `EA` was never assigned, so that line raises
UnboundLocalError (the eigen-based `s`, `u`, `v` computed just before are dead
stores); in the `symmetric=False` branch it recomputes the same factorization
a second time. -/
def exponential_adjacency_dim_reduce (L : LinAlg α) (G : Graph α) (dim : ℕ)
    (required_links : List (ℤ × ℤ)) (symmetric : Bool) :
    Except PyErr (List ℤ) := do
  if symmetric then
    let A := get_symmetric_adjacency_matrix G
    let (w, v) ← eigshCall L G.n A dim
    let _s : Fin dim → α := fun k => L.expF (w k)
    let _u : Fin G.n → Fin dim → α := v
    let _vT : Fin dim → Fin G.n → α := fun k i => v i k
    Except.error PyErr.unboundLocal
  else
    let A := get_adjacency_matrix G
    let EA := L.expmF G.n A
    let _ ← svdsCall L G.n EA dim
    let (u, s, v) ← svdsCall L G.n EA dim
    predLoop (svd_entry_step G.n dim u s v) required_links

/-- Written from the spec's words (§4.2): the Asymmetric Truncated-SVD
Estimator on an explicitly given matrix `M` — truncated rank-`dim` SVD of `M`,
entry reconstruction `Σ_k S[k]·U[i,k]·V[k,j]`, sign rule `≥ 0 → +1`. -/
def spec_asym_svd_on_matrix (L : LinAlg α) (n : ℕ) (M : Fin n → Fin n → α)
    (dim : ℕ) (pairs : List (ℤ × ℤ)) : Except PyErr (List ℤ) := do
  let (u, s, v) ← svdsCall L n M dim
  predLoop (svd_entry_step n dim u s v) pairs

/-- Written from the spec's words (§4.4, `symmetric=False`): build the raw
adjacency matrix, exponentiate it, then run the §4.2 estimator on exp(A). -/
def spec_exponential_asym (L : LinAlg α) (G : Graph α) (dim : ℕ)
    (pairs : List (ℤ × ℤ)) : Except PyErr (List ℤ) :=
  spec_asym_svd_on_matrix L G.n (L.expmF G.n (get_adjacency_matrix G)) dim pairs

end Embedding

/-- The value delivered by a per-pair step, with `0` as the (never consulted)
default on the error side; used to state that each output position depends
only on the pair at that position. -/
def okSign (e : Except PyErr ℤ) : ℤ :=
  match e with
  | .ok z => z
  | .error _ => 0

instance exceptDecEq {ε β : Type} [DecidableEq ε] [DecidableEq β] :
    DecidableEq (Except ε β) := fun x y =>
  match x, y with
  | .ok a, .ok b => decidable_of_iff (a = b) (by simp)
  | .ok _, .error _ => isFalse (by simp)
  | .error _, .ok _ => isFalse (by simp)
  | .error e, .error f => decidable_of_iff (e = f) (by simp)

/-- A concrete solver bundle over `ℤ` for evaluating the embedding on closed
inputs: constant factors, identity exponentials. -/
def trivialLA : LinAlg ℤ where
  svdsF := fun _ _ _ => (fun _ _ => 1, fun _ => 1, fun _ _ => 1)
  eigshF := fun _ _ _ => (fun _ => 1, fun _ _ => 1)
  expmF := fun _ A => A
  expF := fun q => q

/-- A concrete 2-node graph (a single positive undirected edge). -/
def g2 : Graph ℤ where
  n := 2
  adj := fun i j => if i = j then 0 else 1
  symAdj := fun i j => if i = j then 0 else 1

section Lemmas

variable {α : Type} [LinearOrderedCommRing α]

@[simp]
theorem except_bind_ok {ε β γ : Type} (a : β) (f : β → Except ε γ) :
    (Except.ok a >>= f : Except ε γ) = f a := rfl

@[simp]
theorem except_bind_err {ε β γ : Type} (e : ε) (f : β → Except ε γ) :
    (Except.error e >>= f : Except ε γ) = .error e := rfl

@[simp]
theorem except_map_ok {ε β γ : Type} (f : β → γ) (a : β) :
    (f <$> Except.ok a : Except ε γ) = .ok (f a) := rfl

@[simp]
theorem except_map_err {ε β γ : Type} (f : β → γ) (e : ε) :
    (f <$> Except.error e : Except ε γ) = .error e := rfl

theorem npIndex_of_nonneg (n : ℕ) (i : ℤ) (h0 : 0 ≤ i) (hn : i < (n : ℤ)) :
    npIndex n i = .ok ⟨i.toNat, by omega⟩ := by
  simp [npIndex, h0, hn]

theorem npIndex_of_neg (n : ℕ) (i : ℤ) (h0 : -(n : ℤ) ≤ i) (hn : i < 0) :
    npIndex n i = .ok ⟨(i + n).toNat, by omega⟩ := by
  have : ¬ (0 ≤ i ∧ i < (n : ℤ)) := by omega
  simp [npIndex, this, h0, hn]

theorem npIndex_oob (n : ℕ) (i : ℤ) (h : i < -(n : ℤ) ∨ (n : ℤ) ≤ i) :
    npIndex n i = .error .indexOutOfRange := by
  have h1 : ¬ (0 ≤ i ∧ i < (n : ℤ)) := by omega
  have h2 : ¬ (-(n : ℤ) ≤ i ∧ i < 0) := by omega
  simp [npIndex, h1, h2]

theorem entrySum_eq_finset_sum (dim : ℕ) (f : Fin dim → α) :
    entrySum dim f = ∑ k : Fin dim, f k := by
  rw [entrySum, Fin.sum_univ_def]

/-- If every step succeeds, the loop returns exactly the input-ordered map of
the per-pair values. -/
theorem predLoop_map_of_ok (step : ℤ × ℤ → Except PyErr ℤ)
    (l : List (ℤ × ℤ)) (h : ∀ p ∈ l, ∃ z, step p = .ok z) :
    predLoop step l = .ok (l.map (fun p => okSign (step p))) := by
  induction l with
  | nil => simp [predLoop]
  | cons p rest ih =>
    obtain ⟨z, hz⟩ := h p (List.mem_cons_self p rest)
    have hrest := ih (fun q hq => h q (List.mem_cons_of_mem p hq))
    simp [predLoop, hz, hrest, okSign]

/-- The only exception a reconstruction step can raise is IndexError. -/
theorem svd_entry_step_error (n dim : ℕ) (u : Fin n → Fin dim → α)
    (s : Fin dim → α) (v : Fin dim → Fin n → α) (pair : ℤ × ℤ) (e : PyErr)
    (h : svd_entry_step n dim u s v pair = .error e) :
    e = .indexOutOfRange := by
  unfold svd_entry_step npIndex at h
  split_ifs at h <;> simp_all

theorem eig_entry_step_error (n dim : ℕ) (w : Fin dim → α)
    (v : Fin n → Fin dim → α) (pair : ℤ × ℤ) (e : PyErr)
    (h : eig_entry_step n dim w v pair = .error e) :
    e = .indexOutOfRange := by
  unfold eig_entry_step npIndex at h
  split_ifs at h <;> simp_all

/-- If some element of the list makes the step raise IndexError and IndexError
is the only exception the step can raise, the loop raises IndexError. -/
theorem predLoop_error (step : ℤ × ℤ → Except PyErr ℤ) (l : List (ℤ × ℤ))
    (p : ℤ × ℤ) (hp : p ∈ l) (he : step p = .error .indexOutOfRange)
    (honly : ∀ q e, step q = .error e → e = .indexOutOfRange) :
    predLoop step l = .error .indexOutOfRange := by
  induction l with
  | nil => cases hp
  | cons q rest ih =>
    rcases List.mem_cons.mp hp with rfl | hmem
    · simp [predLoop, he]
    · cases hq : step q with
      | error e => simp [predLoop, hq, honly q e hq]
      | ok z => simp [predLoop, hq, ih hmem]

theorem npIndex_error (n : ℕ) (i : ℤ) (e : PyErr)
    (h : npIndex n i = .error e) : e = .indexOutOfRange := by
  unfold npIndex at h
  split_ifs at h
  simp_all

/-- A pair with a coordinate outside `[-n, n)` makes the SVD reconstruction
step raise IndexError. -/
theorem svd_entry_step_oob (n dim : ℕ) (u : Fin n → Fin dim → α)
    (s : Fin dim → α) (v : Fin dim → Fin n → α) (p : ℤ × ℤ)
    (hbad : p.1 < -(n : ℤ) ∨ (n : ℤ) ≤ p.1 ∨ p.2 < -(n : ℤ) ∨ (n : ℤ) ≤ p.2) :
    svd_entry_step n dim u s v p = .error .indexOutOfRange := by
  unfold svd_entry_step
  rcases hbad with h | h | h | h
  · rw [npIndex_oob n p.1 (Or.inl h)]; rfl
  · rw [npIndex_oob n p.1 (Or.inr h)]; rfl
  all_goals {
    cases hni : npIndex n p.1 with
    | error e =>
      have he := npIndex_error n p.1 e hni
      subst he
      simp
    | ok i' =>
      first
      | simp [hni, npIndex_oob n p.2 (Or.inl h)]
      | simp [hni, npIndex_oob n p.2 (Or.inr h)] }

/-- A pair with a coordinate outside `[-n, n)` makes the eigen reconstruction
step raise IndexError. -/
theorem eig_entry_step_oob (n dim : ℕ) (w : Fin dim → α)
    (v : Fin n → Fin dim → α) (p : ℤ × ℤ)
    (hbad : p.1 < -(n : ℤ) ∨ (n : ℤ) ≤ p.1 ∨ p.2 < -(n : ℤ) ∨ (n : ℤ) ≤ p.2) :
    eig_entry_step n dim w v p = .error .indexOutOfRange := by
  unfold eig_entry_step
  rcases hbad with h | h | h | h
  · rw [npIndex_oob n p.1 (Or.inl h)]; rfl
  · rw [npIndex_oob n p.1 (Or.inr h)]; rfl
  all_goals {
    cases hni : npIndex n p.1 with
    | error e =>
      have he := npIndex_error n p.1 e hni
      subst he
      simp
    | ok i' =>
      first
      | simp [hni, npIndex_oob n p.2 (Or.inl h)]
      | simp [hni, npIndex_oob n p.2 (Or.inr h)] }

end Lemmas

example : adjacency_dim_reduce trivialLA g2 1 [(0, 1)] = .ok [1] := by decide

example : adjacency_dim_reduce trivialLA g2 0 [(0, 1)] =
    .error .invalidRank := by decide

example : exponential_adjacency_dim_reduce trivialLA g2 1 [(0, 1)] true =
    .error .unboundLocal := by decide

example : adjacency_dim_reduce trivialLA g2 1 [(-1, 0)] = .ok [1] := by decide

example : adjacency_dim_reduce trivialLA g2 1 [(2, 0)] =
    .error .indexOutOfRange := by decide

/-- C1: the claim (and the spec) say the `symmetric=True` path of the
exponential estimator must return the sign list immediately after
reconstructing from exponentiated eigenvalues, without any SVD of an
exponentiated matrix.  The code instead always reaches the leftover line
`u, s, v = svds(EA, k=dim)`, where `EA` is unassigned in this branch, and
raises UnboundLocalError: for every solver bundle, graph, valid rank and pair
list, the call errors instead of returning predictions.  This confirms the
code bug; the claim describes the documented intent. -/
theorem C1_exponential_symmetric_raises_unbound {α : Type}
    [LinearOrderedCommRing α] (L : LinAlg α) (G : Graph α) (dim : ℕ)
    (pairs : List (ℤ × ℤ)) (h1 : 1 ≤ dim) (h2 : dim < G.n) :
    exponential_adjacency_dim_reduce L G dim pairs true =
      .error .unboundLocal := by
  simp [exponential_adjacency_dim_reduce, eigshCall, h1, h2]

theorem C1_witness :
    (1 ≤ 1 ∧ 1 < g2.n) ∧
      exponential_adjacency_dim_reduce trivialLA g2 1 [(0, 1)] true =
        .error .unboundLocal :=
  ⟨by decide,
    C1_exponential_symmetric_raises_unbound trivialLA g2 1 [(0, 1)]
      (by decide) (by decide)⟩

/-- C3: on a valid input (2-node graph, rank 1, two in-range pairs) the SVD
estimator, the symmetric estimator and the asymmetric exponential estimator
each return a ±1 list of the input's length, but the third operation with
`symmetric=True` raises UnboundLocalError instead of returning any list — the
claim holds for the intended behaviour and is broken by the code's leftover
`svds(EA)` line. -/
theorem C3_all_ops_sign_lists_except_broken_branch :
    adjacency_dim_reduce trivialLA g2 1 [(0, 1), (1, 0)] = .ok [1, 1] ∧
    symmetric_adjacency_dim_reduce trivialLA g2 1 [(0, 1), (1, 0)] =
      .ok [1, 1] ∧
    exponential_adjacency_dim_reduce trivialLA g2 1 [(0, 1), (1, 0)] false =
      .ok [1, 1] ∧
    exponential_adjacency_dim_reduce trivialLA g2 1 [(0, 1), (1, 0)] true =
      .error .unboundLocal := by
  refine ⟨by decide, by decide, by decide, by decide⟩

/-- C5: for every solver bundle, graph, pair list and symmetry flag, a
requested rank with `dim = 0` or `dim ≥ n` makes all three estimators (the
exponential one in both modes) fail with the invalid-rank error, raised by the
truncated factorization before any reconstruction. -/
theorem C5_invalid_rank_all_estimators {α : Type} [LinearOrderedCommRing α]
    (L : LinAlg α) (G : Graph α) (dim : ℕ) (pairs : List (ℤ × ℤ))
    (symmetric : Bool) (h : dim = 0 ∨ G.n ≤ dim) :
    adjacency_dim_reduce L G dim pairs = .error .invalidRank ∧
    symmetric_adjacency_dim_reduce L G dim pairs = .error .invalidRank ∧
    exponential_adjacency_dim_reduce L G dim pairs symmetric =
      .error .invalidRank := by
  have hc : ¬ (1 ≤ dim ∧ dim < G.n) := by omega
  refine ⟨?_, ?_, ?_⟩ <;> cases symmetric <;>
    simp [adjacency_dim_reduce, symmetric_adjacency_dim_reduce,
      exponential_adjacency_dim_reduce, svdsCall, eigshCall, hc]

theorem C5_witness :
    (2 = 0 ∨ g2.n ≤ 2) ∧
      (adjacency_dim_reduce trivialLA g2 2 [(0, 1)] = .error .invalidRank ∧
       symmetric_adjacency_dim_reduce trivialLA g2 2 [(0, 1)] =
         .error .invalidRank ∧
       exponential_adjacency_dim_reduce trivialLA g2 2 [(0, 1)] true =
         .error .invalidRank) :=
  ⟨by decide,
    C5_invalid_rank_all_estimators trivialLA g2 2 [(0, 1)] true (by decide)⟩

/-- C8: for every solver bundle, graph, rank and pair list, the exponential
estimator with `symmetric=False` returns exactly what the Asymmetric
Truncated-SVD Estimator of spec §4.2 returns when run on the matrix
exponential of the raw adjacency matrix (the duplicated `svds(EA)` call in the
code recomputes the same deterministic factorization, so it is immaterial). -/
theorem C8_exponential_asymmetric_refines_spec {α : Type}
    [LinearOrderedCommRing α] (L : LinAlg α) (G : Graph α) (dim : ℕ)
    (pairs : List (ℤ × ℤ)) :
    exponential_adjacency_dim_reduce L G dim pairs false =
      spec_exponential_asym L G dim pairs := by
  unfold exponential_adjacency_dim_reduce spec_exponential_asym
    spec_asym_svd_on_matrix
  by_cases hc : 1 ≤ dim ∧ dim < G.n <;> simp [svdsCall, hc]

/-- C2: for every solver bundle, graph, valid rank and in-range pair (i, j),
the SVD estimator reconstructs the entry as the sum over exactly the `dim`
retained components `Σ_{k=0}^{dim-1} S[k]·U[i,k]·V[k,j]` and emits `+1` when
that entry is `≥ 0` (zero included) and `-1` otherwise. -/
theorem C2_svd_reconstruction_formula {α : Type} [LinearOrderedCommRing α]
    (L : LinAlg α) (G : Graph α) (dim : ℕ) (i j : ℤ)
    (hdim1 : 1 ≤ dim) (hdim2 : dim < G.n)
    (hi0 : 0 ≤ i) (hi : i.toNat < G.n) (hj0 : 0 ≤ j) (hj : j.toNat < G.n) :
    adjacency_dim_reduce L G dim [(i, j)] =
      .ok [if 0 ≤ ∑ k : Fin dim,
              (L.svdsF G.n dim (get_adjacency_matrix G)).2.1 k *
              (L.svdsF G.n dim (get_adjacency_matrix G)).1 ⟨i.toNat, hi⟩ k *
              (L.svdsF G.n dim (get_adjacency_matrix G)).2.2 k ⟨j.toNat, hj⟩
            then 1 else -1] := by
  show (do
      let (u, s, v) ← svdsCall L G.n (get_adjacency_matrix G) dim
      predLoop (svd_entry_step G.n dim u s v) [(i, j)]) = _
  rw [show svdsCall L G.n (get_adjacency_matrix G) dim =
      .ok (L.svdsF G.n dim (get_adjacency_matrix G)) from
    by simp [svdsCall, hdim1, hdim2]]
  simp only [except_bind_ok, predLoop, svd_entry_step,
    npIndex_of_nonneg G.n i hi0 (by omega),
    npIndex_of_nonneg G.n j hj0 (by omega), entrySum_eq_finset_sum]
  rfl

theorem C2_witness :
    (1 ≤ 1 ∧ 1 < g2.n ∧ (0 : ℤ) ≤ 0 ∧ (0 : ℤ).toNat < g2.n ∧
      (0 : ℤ) ≤ 1 ∧ (1 : ℤ).toNat < g2.n) ∧
    adjacency_dim_reduce trivialLA g2 1 [(0, 1)] =
      .ok [if 0 ≤ ∑ k : Fin 1,
              (trivialLA.svdsF g2.n 1 (get_adjacency_matrix g2)).2.1 k *
              (trivialLA.svdsF g2.n 1 (get_adjacency_matrix g2)).1
                ⟨(0 : ℤ).toNat, by decide⟩ k *
              (trivialLA.svdsF g2.n 1 (get_adjacency_matrix g2)).2.2 k
                ⟨(1 : ℤ).toNat, by decide⟩
            then 1 else -1] :=
  ⟨by decide,
    C2_svd_reconstruction_formula trivialLA g2 1 0 1 (by decide) (by decide)
      (by decide) (by decide) (by decide) (by decide)⟩

/-- C6: for every solver bundle, graph, valid rank and in-range pair (i, j),
the symmetric estimator reconstructs the entry as
`Σ_{k=0}^{dim-1} W[k]·V[i,k]·V[j,k]` from the `dim` computed eigenpairs and
applies the same sign rule as the SVD estimator (`≥ 0 → +1`, else `-1`). -/
theorem C6_symmetric_reconstruction_formula {α : Type}
    [LinearOrderedCommRing α] (L : LinAlg α) (G : Graph α) (dim : ℕ)
    (i j : ℤ) (hdim1 : 1 ≤ dim) (hdim2 : dim < G.n)
    (hi0 : 0 ≤ i) (hi : i.toNat < G.n) (hj0 : 0 ≤ j) (hj : j.toNat < G.n) :
    symmetric_adjacency_dim_reduce L G dim [(i, j)] =
      .ok [if 0 ≤ ∑ k : Fin dim,
              (L.eigshF G.n dim (get_symmetric_adjacency_matrix G)).1 k *
              (L.eigshF G.n dim (get_symmetric_adjacency_matrix G)).2
                ⟨i.toNat, hi⟩ k *
              (L.eigshF G.n dim (get_symmetric_adjacency_matrix G)).2
                ⟨j.toNat, hj⟩ k
            then 1 else -1] := by
  show (do
      let (w, v) ← eigshCall L G.n (get_symmetric_adjacency_matrix G) dim
      predLoop (eig_entry_step G.n dim w v) [(i, j)]) = _
  rw [show eigshCall L G.n (get_symmetric_adjacency_matrix G) dim =
      .ok (L.eigshF G.n dim (get_symmetric_adjacency_matrix G)) from
    by simp [eigshCall, hdim1, hdim2]]
  simp only [except_bind_ok, predLoop, eig_entry_step,
    npIndex_of_nonneg G.n i hi0 (by omega),
    npIndex_of_nonneg G.n j hj0 (by omega), entrySum_eq_finset_sum]
  rfl

theorem C6_witness :
    (1 ≤ 1 ∧ 1 < g2.n ∧ (0 : ℤ) ≤ 0 ∧ (0 : ℤ).toNat < g2.n ∧
      (0 : ℤ) ≤ 1 ∧ (1 : ℤ).toNat < g2.n) ∧
    symmetric_adjacency_dim_reduce trivialLA g2 1 [(0, 1)] =
      .ok [if 0 ≤ ∑ k : Fin 1,
              (trivialLA.eigshF g2.n 1 (get_symmetric_adjacency_matrix g2)).1
                k *
              (trivialLA.eigshF g2.n 1 (get_symmetric_adjacency_matrix g2)).2
                ⟨(0 : ℤ).toNat, by decide⟩ k *
              (trivialLA.eigshF g2.n 1 (get_symmetric_adjacency_matrix g2)).2
                ⟨(1 : ℤ).toNat, by decide⟩ k
            then 1 else -1] :=
  ⟨by decide,
    C6_symmetric_reconstruction_formula trivialLA g2 1 0 1 (by decide)
      (by decide) (by decide) (by decide) (by decide) (by decide)⟩

/-- C7: the symmetric estimator is symmetric in the two components of a
requested pair: for every solver bundle, graph, rank and integers i, j, the
call on [(i, j)] returns exactly the call on [(j, i)] (when both succeed the
reconstruction `Σ_k W[k]·V[i,k]·V[j,k]` is symmetric in i and j by
commutativity; all error outcomes coincide as well, so the equality holds
unconditionally). -/
theorem C7_symmetric_prediction_pair_symmetry {α : Type}
    [LinearOrderedCommRing α] (L : LinAlg α) (G : Graph α) (dim : ℕ)
    (i j : ℤ) :
    symmetric_adjacency_dim_reduce L G dim [(i, j)] =
      symmetric_adjacency_dim_reduce L G dim [(j, i)] := by
  unfold symmetric_adjacency_dim_reduce
  cases hE : eigshCall L G.n (get_symmetric_adjacency_matrix G) dim with
  | error e => simp [hE]
  | ok wv =>
    obtain ⟨w, v⟩ := wv
    simp only [hE, except_bind_ok, predLoop, eig_entry_step]
    cases hni : npIndex G.n i with
    | error e =>
      have he := npIndex_error G.n i e hni
      subst he
      cases hnj : npIndex G.n j with
      | error e2 =>
        have he2 := npIndex_error G.n j e2 hnj
        subst he2
        simp [hni, hnj]
      | ok j' => simp [hni, hnj]
    | ok i' =>
      cases hnj : npIndex G.n j with
      | error e2 =>
        have he2 := npIndex_error G.n j e2 hnj
        subst he2
        simp [hni, hnj]
      | ok j' =>
        simp only [hni, hnj, except_bind_ok]
        have hsum : (fun k => w k * v i' k * v j' k) =
            (fun k => w k * v j' k * v i' k) := by
          funext k; ring
        rw [hsum]

/-- C9: for every solver bundle, graph, valid rank and list of in-range pairs,
each of the three working code paths returns `ok` of the input list mapped
through a fixed per-pair prediction function — so the output has the input's
order and length, the prediction at position t depends only on the pair at
position t, and permuting the input permutes the output identically. -/
theorem C9_output_is_positionwise_map {α : Type} [LinearOrderedCommRing α]
    (L : LinAlg α) (G : Graph α) (dim : ℕ) (pairs : List (ℤ × ℤ))
    (hdim1 : 1 ≤ dim) (hdim2 : dim < G.n)
    (hp : ∀ p ∈ pairs, 0 ≤ p.1 ∧ p.1 < (G.n : ℤ) ∧ 0 ≤ p.2 ∧ p.2 < (G.n : ℤ)) :
    adjacency_dim_reduce L G dim pairs =
      .ok (pairs.map (fun p => okSign (svd_entry_step G.n dim
        (L.svdsF G.n dim (get_adjacency_matrix G)).1
        (L.svdsF G.n dim (get_adjacency_matrix G)).2.1
        (L.svdsF G.n dim (get_adjacency_matrix G)).2.2 p))) ∧
    symmetric_adjacency_dim_reduce L G dim pairs =
      .ok (pairs.map (fun p => okSign (eig_entry_step G.n dim
        (L.eigshF G.n dim (get_symmetric_adjacency_matrix G)).1
        (L.eigshF G.n dim (get_symmetric_adjacency_matrix G)).2 p))) ∧
    exponential_adjacency_dim_reduce L G dim pairs false =
      .ok (pairs.map (fun p => okSign (svd_entry_step G.n dim
        (L.svdsF G.n dim (L.expmF G.n (get_adjacency_matrix G))).1
        (L.svdsF G.n dim (L.expmF G.n (get_adjacency_matrix G))).2.1
        (L.svdsF G.n dim (L.expmF G.n (get_adjacency_matrix G))).2.2 p))) := by
  have hstep : ∀ (u : Fin G.n → Fin dim → α) (s : Fin dim → α)
      (v : Fin dim → Fin G.n → α), ∀ p ∈ pairs,
      ∃ z, svd_entry_step G.n dim u s v p = .ok z := by
    intro u s v p hmem
    obtain ⟨h1, h2, h3, h4⟩ := hp p hmem
    simp only [svd_entry_step, npIndex_of_nonneg G.n p.1 h1 h2,
      npIndex_of_nonneg G.n p.2 h3 h4, except_bind_ok]
    exact ⟨_, rfl⟩
  have hstepE : ∀ (w : Fin dim → α) (v : Fin G.n → Fin dim → α),
      ∀ p ∈ pairs, ∃ z, eig_entry_step G.n dim w v p = .ok z := by
    intro w v p hmem
    obtain ⟨h1, h2, h3, h4⟩ := hp p hmem
    simp only [eig_entry_step, npIndex_of_nonneg G.n p.1 h1 h2,
      npIndex_of_nonneg G.n p.2 h3 h4, except_bind_ok]
    exact ⟨_, rfl⟩
  refine ⟨?_, ?_, ?_⟩
  · show (do
        let (u, s, v) ← svdsCall L G.n (get_adjacency_matrix G) dim
        predLoop (svd_entry_step G.n dim u s v) pairs) = _
    rw [show svdsCall L G.n (get_adjacency_matrix G) dim =
        .ok (L.svdsF G.n dim (get_adjacency_matrix G)) from
      by simp [svdsCall, hdim1, hdim2]]
    exact predLoop_map_of_ok _ pairs (hstep _ _ _)
  · show (do
        let (w, v) ← eigshCall L G.n (get_symmetric_adjacency_matrix G) dim
        predLoop (eig_entry_step G.n dim w v) pairs) = _
    rw [show eigshCall L G.n (get_symmetric_adjacency_matrix G) dim =
        .ok (L.eigshF G.n dim (get_symmetric_adjacency_matrix G)) from
      by simp [eigshCall, hdim1, hdim2]]
    exact predLoop_map_of_ok _ pairs (hstepE _ _)
  · show (do
        let _ ← svdsCall L G.n (L.expmF G.n (get_adjacency_matrix G)) dim
        let (u, s, v) ← svdsCall L G.n (L.expmF G.n (get_adjacency_matrix G))
          dim
        predLoop (svd_entry_step G.n dim u s v) pairs) = _
    rw [show svdsCall L G.n (L.expmF G.n (get_adjacency_matrix G)) dim =
        .ok (L.svdsF G.n dim (L.expmF G.n (get_adjacency_matrix G))) from
      by simp [svdsCall, hdim1, hdim2]]
    exact predLoop_map_of_ok _ pairs (hstep _ _ _)

theorem C9_witness :
    (1 ≤ 1 ∧ 1 < g2.n ∧
      ∀ p ∈ [((0 : ℤ), (1 : ℤ)), (1, 0)],
        0 ≤ p.1 ∧ p.1 < (g2.n : ℤ) ∧ 0 ≤ p.2 ∧ p.2 < (g2.n : ℤ)) ∧
    adjacency_dim_reduce trivialLA g2 1 [(0, 1), (1, 0)] =
      .ok ([((0 : ℤ), (1 : ℤ)), (1, 0)].map
        (fun p => okSign (svd_entry_step g2.n 1
          (trivialLA.svdsF g2.n 1 (get_adjacency_matrix g2)).1
          (trivialLA.svdsF g2.n 1 (get_adjacency_matrix g2)).2.1
          (trivialLA.svdsF g2.n 1 (get_adjacency_matrix g2)).2.2 p))) :=
  ⟨by decide,
    (C9_output_is_positionwise_map trivialLA g2 1 [(0, 1), (1, 0)]
      (by decide) (by decide) (by decide)).1⟩

/-- C4 counterexample: the claim says any pair with an index `< 0` fails with
the index error, but on the 2-node graph the pair (-1, 0) is accepted — the
negative index wraps to node 1 and the call returns a prediction list. -/
theorem C4_counterexample_negative_index_accepted :
    adjacency_dim_reduce trivialLA g2 1 [(-1, 0)] = .ok [1] := by decide

/-- C4 amended: for every estimator call that reaches the reconstruction loop
(the SVD estimator, the symmetric estimator, and the exponential estimator
with `symmetric=False`) with a valid rank, if any requested pair references a
node index `≥ n` or `< -n`, the call fails with the index error; indices in
`[-n, -1]` do not fail (they wrap, see C10). -/
theorem C4_amended_out_of_range_index_raises {α : Type}
    [LinearOrderedCommRing α] (L : LinAlg α) (G : Graph α) (dim : ℕ)
    (pairs : List (ℤ × ℤ)) (p : ℤ × ℤ)
    (hdim1 : 1 ≤ dim) (hdim2 : dim < G.n) (hmem : p ∈ pairs)
    (hbad : p.1 < -(G.n : ℤ) ∨ (G.n : ℤ) ≤ p.1 ∨
            p.2 < -(G.n : ℤ) ∨ (G.n : ℤ) ≤ p.2) :
    adjacency_dim_reduce L G dim pairs = .error .indexOutOfRange ∧
    symmetric_adjacency_dim_reduce L G dim pairs = .error .indexOutOfRange ∧
    exponential_adjacency_dim_reduce L G dim pairs false =
      .error .indexOutOfRange := by
  refine ⟨?_, ?_, ?_⟩
  · show (do
        let (u, s, v) ← svdsCall L G.n (get_adjacency_matrix G) dim
        predLoop (svd_entry_step G.n dim u s v) pairs) = _
    rw [show svdsCall L G.n (get_adjacency_matrix G) dim =
        .ok (L.svdsF G.n dim (get_adjacency_matrix G)) from
      by simp [svdsCall, hdim1, hdim2]]
    exact predLoop_error _ pairs p hmem
      (svd_entry_step_oob G.n dim _ _ _ p hbad)
      (fun q e => svd_entry_step_error G.n dim _ _ _ q e)
  · show (do
        let (w, v) ← eigshCall L G.n (get_symmetric_adjacency_matrix G) dim
        predLoop (eig_entry_step G.n dim w v) pairs) = _
    rw [show eigshCall L G.n (get_symmetric_adjacency_matrix G) dim =
        .ok (L.eigshF G.n dim (get_symmetric_adjacency_matrix G)) from
      by simp [eigshCall, hdim1, hdim2]]
    exact predLoop_error _ pairs p hmem
      (eig_entry_step_oob G.n dim _ _ p hbad)
      (fun q e => eig_entry_step_error G.n dim _ _ q e)
  · show (do
        let _ ← svdsCall L G.n (L.expmF G.n (get_adjacency_matrix G)) dim
        let (u, s, v) ← svdsCall L G.n (L.expmF G.n (get_adjacency_matrix G))
          dim
        predLoop (svd_entry_step G.n dim u s v) pairs) = _
    rw [show svdsCall L G.n (L.expmF G.n (get_adjacency_matrix G)) dim =
        .ok (L.svdsF G.n dim (L.expmF G.n (get_adjacency_matrix G))) from
      by simp [svdsCall, hdim1, hdim2]]
    exact predLoop_error _ pairs p hmem
      (svd_entry_step_oob G.n dim _ _ _ p hbad)
      (fun q e => svd_entry_step_error G.n dim _ _ _ q e)

theorem C4_witness :
    (1 ≤ 1 ∧ 1 < g2.n ∧ ((2 : ℤ), (0 : ℤ)) ∈ [((2 : ℤ), (0 : ℤ))] ∧
      ((2 : ℤ) < -(g2.n : ℤ) ∨ (g2.n : ℤ) ≤ 2 ∨
       (0 : ℤ) < -(g2.n : ℤ) ∨ (g2.n : ℤ) ≤ 0)) ∧
    (adjacency_dim_reduce trivialLA g2 1 [(2, 0)] =
       .error .indexOutOfRange ∧
     symmetric_adjacency_dim_reduce trivialLA g2 1 [(2, 0)] =
       .error .indexOutOfRange ∧
     exponential_adjacency_dim_reduce trivialLA g2 1 [(2, 0)] false =
       .error .indexOutOfRange) :=
  ⟨by decide,
    C4_amended_out_of_range_index_raises trivialLA g2 1 [(2, 0)] (2, 0)
      (by decide) (by decide) (by decide) (by decide)⟩

/-- C10 counterexample: the claim quantifies over every estimator call, but
the exponential estimator with `symmetric=True` raises (UnboundLocalError)
even for a pair with indices in `[-n, -1]` and a valid rank, so "does not
raise any error" fails there. -/
theorem C10_counterexample_symmetric_exponential_raises :
    exponential_adjacency_dim_reduce trivialLA g2 1 [(-1, -2)] true =
      .error .unboundLocal := by decide

/-- C10 amended: for the estimator calls that reach the reconstruction loop
(the SVD estimator, the symmetric estimator, and the exponential estimator
with `symmetric=False`) with a valid rank, a pair whose indices lie in
`[-n, -1]` raises no error: negative indices wrap around, and the prediction
equals the one for `(i mod n, j mod n)`. -/
theorem C10_amended_negative_indices_wrap {α : Type}
    [LinearOrderedCommRing α] (L : LinAlg α) (G : Graph α) (dim : ℕ)
    (i j : ℤ) (hdim1 : 1 ≤ dim) (hdim2 : dim < G.n)
    (hi1 : -(G.n : ℤ) ≤ i) (hi2 : i < 0)
    (hj1 : -(G.n : ℤ) ≤ j) (hj2 : j < 0) :
    ((∃ l, adjacency_dim_reduce L G dim [(i, j)] = .ok l) ∧
      adjacency_dim_reduce L G dim [(i, j)] =
        adjacency_dim_reduce L G dim [(i % (G.n : ℤ), j % (G.n : ℤ))]) ∧
    ((∃ l, symmetric_adjacency_dim_reduce L G dim [(i, j)] = .ok l) ∧
      symmetric_adjacency_dim_reduce L G dim [(i, j)] =
        symmetric_adjacency_dim_reduce L G dim
          [(i % (G.n : ℤ), j % (G.n : ℤ))]) ∧
    ((∃ l, exponential_adjacency_dim_reduce L G dim [(i, j)] false = .ok l) ∧
      exponential_adjacency_dim_reduce L G dim [(i, j)] false =
        exponential_adjacency_dim_reduce L G dim
          [(i % (G.n : ℤ), j % (G.n : ℤ))] false) := by
  have hwrap : ∀ x : ℤ, -(G.n : ℤ) ≤ x → x < 0 → x % (G.n : ℤ) = x + G.n := by
    intro x hx1 hx2
    have h5 : (x + (G.n : ℤ) * 1) % (G.n : ℤ) = x % G.n :=
      Int.add_mul_emod_self_left x (G.n : ℤ) 1
    have h6 : x + (G.n : ℤ) * 1 = x + G.n := by ring
    rw [h6] at h5
    rw [← h5]
    exact Int.emod_eq_of_lt (by omega) (by omega)
  have hieq : npIndex G.n (i % (G.n : ℤ)) = npIndex G.n i := by
    rw [hwrap i hi1 hi2, npIndex_of_nonneg G.n (i + G.n) (by omega) (by omega),
      npIndex_of_neg G.n i hi1 hi2]
  have hjeq : npIndex G.n (j % (G.n : ℤ)) = npIndex G.n j := by
    rw [hwrap j hj1 hj2, npIndex_of_nonneg G.n (j + G.n) (by omega) (by omega),
      npIndex_of_neg G.n j hj1 hj2]
  have hsvd : ∀ (u : Fin G.n → Fin dim → α) (s : Fin dim → α)
      (v : Fin dim → Fin G.n → α),
      (∃ z, svd_entry_step G.n dim u s v (i, j) = .ok z) ∧
      svd_entry_step G.n dim u s v (i, j) =
        svd_entry_step G.n dim u s v (i % (G.n : ℤ), j % (G.n : ℤ)) := by
    intro u s v
    constructor
    · simp only [svd_entry_step, npIndex_of_neg G.n i hi1 hi2,
        npIndex_of_neg G.n j hj1 hj2, except_bind_ok]
      exact ⟨_, rfl⟩
    · simp only [svd_entry_step, hieq, hjeq]
  have heig : ∀ (w : Fin dim → α) (v : Fin G.n → Fin dim → α),
      (∃ z, eig_entry_step G.n dim w v (i, j) = .ok z) ∧
      eig_entry_step G.n dim w v (i, j) =
        eig_entry_step G.n dim w v (i % (G.n : ℤ), j % (G.n : ℤ)) := by
    intro w v
    constructor
    · simp only [eig_entry_step, npIndex_of_neg G.n i hi1 hi2,
        npIndex_of_neg G.n j hj1 hj2, except_bind_ok]
      exact ⟨_, rfl⟩
    · simp only [eig_entry_step, hieq, hjeq]
  refine ⟨⟨?_, ?_⟩, ⟨?_, ?_⟩, ⟨?_, ?_⟩⟩
  · obtain ⟨z, hz⟩ := (hsvd (L.svdsF G.n dim (get_adjacency_matrix G)).1
      (L.svdsF G.n dim (get_adjacency_matrix G)).2.1
      (L.svdsF G.n dim (get_adjacency_matrix G)).2.2).1
    refine ⟨[z], ?_⟩
    show (do
        let (u, s, v) ← svdsCall L G.n (get_adjacency_matrix G) dim
        predLoop (svd_entry_step G.n dim u s v) [(i, j)]) = _
    rw [show svdsCall L G.n (get_adjacency_matrix G) dim =
        .ok (L.svdsF G.n dim (get_adjacency_matrix G)) from
      by simp [svdsCall, hdim1, hdim2]]
    simp [predLoop, hz]
  · unfold adjacency_dim_reduce
    cases hS : svdsCall L G.n (get_adjacency_matrix G) dim with
    | error e => simp [hS]
    | ok tri =>
      obtain ⟨u, s, v⟩ := tri
      simp only [hS, except_bind_ok, predLoop, (hsvd u s v).2]
  · obtain ⟨z, hz⟩ := (heig
      (L.eigshF G.n dim (get_symmetric_adjacency_matrix G)).1
      (L.eigshF G.n dim (get_symmetric_adjacency_matrix G)).2).1
    refine ⟨[z], ?_⟩
    show (do
        let (w, v) ← eigshCall L G.n (get_symmetric_adjacency_matrix G) dim
        predLoop (eig_entry_step G.n dim w v) [(i, j)]) = _
    rw [show eigshCall L G.n (get_symmetric_adjacency_matrix G) dim =
        .ok (L.eigshF G.n dim (get_symmetric_adjacency_matrix G)) from
      by simp [eigshCall, hdim1, hdim2]]
    simp [predLoop, hz]
  · unfold symmetric_adjacency_dim_reduce
    cases hS : eigshCall L G.n (get_symmetric_adjacency_matrix G) dim with
    | error e => simp [hS]
    | ok wv =>
      obtain ⟨w, v⟩ := wv
      simp only [hS, except_bind_ok, predLoop, (heig w v).2]
  · obtain ⟨z, hz⟩ := (hsvd
      (L.svdsF G.n dim (L.expmF G.n (get_adjacency_matrix G))).1
      (L.svdsF G.n dim (L.expmF G.n (get_adjacency_matrix G))).2.1
      (L.svdsF G.n dim (L.expmF G.n (get_adjacency_matrix G))).2.2).1
    refine ⟨[z], ?_⟩
    show (do
        let _ ← svdsCall L G.n (L.expmF G.n (get_adjacency_matrix G)) dim
        let (u, s, v) ← svdsCall L G.n (L.expmF G.n (get_adjacency_matrix G))
          dim
        predLoop (svd_entry_step G.n dim u s v) [(i, j)]) = _
    rw [show svdsCall L G.n (L.expmF G.n (get_adjacency_matrix G)) dim =
        .ok (L.svdsF G.n dim (L.expmF G.n (get_adjacency_matrix G))) from
      by simp [svdsCall, hdim1, hdim2]]
    simp [predLoop, hz]
  · unfold exponential_adjacency_dim_reduce
    cases hS : svdsCall L G.n (L.expmF G.n (get_adjacency_matrix G)) dim with
    | error e => simp [hS]
    | ok tri =>
      obtain ⟨u, s, v⟩ := tri
      simp only [Bool.false_eq_true, if_false, hS, except_bind_ok, predLoop,
        (hsvd u s v).2]

theorem C10_witness :
    (1 ≤ 1 ∧ 1 < g2.n ∧ -(g2.n : ℤ) ≤ -1 ∧ (-1 : ℤ) < 0 ∧
      -(g2.n : ℤ) ≤ -2 ∧ (-2 : ℤ) < 0) ∧
    ((∃ l, adjacency_dim_reduce trivialLA g2 1 [(-1, -2)] = .ok l) ∧
      adjacency_dim_reduce trivialLA g2 1 [(-1, -2)] =
        adjacency_dim_reduce trivialLA g2 1
          [((-1 : ℤ) % (g2.n : ℤ), (-2 : ℤ) % (g2.n : ℤ))]) :=
  ⟨by decide,
    (C10_amended_negative_indices_wrap trivialLA g2 1 (-1) (-2) (by decide)
      (by decide) (by decide) (by decide) (by decide) (by decide)).1⟩

theorem C7_witness :
    symmetric_adjacency_dim_reduce trivialLA g2 1 [(0, 1)] =
      symmetric_adjacency_dim_reduce trivialLA g2 1 [(1, 0)] :=
  C7_symmetric_prediction_pair_symmetry trivialLA g2 1 0 1

theorem C8_witness :
    exponential_adjacency_dim_reduce trivialLA g2 1 [(0, 1)] false =
      spec_exponential_asym trivialLA g2 1 [(0, 1)] :=
  C8_exponential_asymmetric_refines_spec trivialLA g2 1 [(0, 1)]
